import Mathlib

/-!
Verification development for the EventMobi Heartbeat dashboard
(`thorbengrosser/eventheartbeat`).

This file gives a shallow embedding, in Lean, of the client-side core of the
repository and proves properties of it:

* the simple ABC tune parser `parseAbcSimple` (with its inner helper
  `durationFromToken`) of `frontend/src/components/SymphonyPlayer.js`;
* the `SymphonyPlayer` note sequencer (`init`, `playNextNote`, `playTone`,
  `ensureFxChain`) of the same module;
* the bubble list and message queue of
  `frontend/src/components/BubbleAnimation.jsx` (`addBubble`,
  `processMessageQueue`, `playPopSound`, `MAX_BUBBLES`);
* the dashboard stats state and socket handlers of
  `frontend/src/components/Dashboard.jsx` (`fetchStats` success path, the
  `checkin_event` debounce of the stats refresh, the `checkin_poke` handler)
  together with `StatsDisplay.jsx`.

JavaScript numbers that occur in the duration computation are IEEE-754
doubles.  They are embedded as `JsVal`: a nonnegative fraction (`Frac`, a
pair of naturals compared by cross multiplication) holding the exact value,
or one of the two special values `inf` / `nan`.  The double behaviors the
claims depend on are modelled exactly:

* a division by zero produces `Infinity` (`0 / 0` produces `NaN`), and
  `0 * Infinity` produces `NaN`, which `Math.min` / `Math.max` propagate;
* every `parseInt` result, product, and quotient is classified by
  `mkJsNum`: a value at or above the exact double overflow threshold
  `2^1024 - 2^970` becomes `Infinity`, and a nonzero value at or below the
  exact underflow threshold `2^-1075` becomes `+0` — for a single rounding
  of an exactly known value these thresholds are IEEE-exact (ties round to
  even, which at both boundaries is the saturated side).

What remains abstracted is the rounding of in-range values (operands of
later operations are kept as exact rationals rather than rounded doubles,
and constants such as `0.3` and `0.08` are written as exact fractions).
This cannot affect any statement proved here: relative rounding error never
changes the zero / finite / `Infinity` / `NaN` classification of a value
that stays hundreds of orders of magnitude away from the thresholds — which
the magnitude hypotheses of the duration theorem enforce — and the final
clamp satisfies `Math.min(1.5, x) ≤ 1.5` exactly (1.5 is a double) and
`Math.max(0.08ish, x) > 0` whatever the rounding of `0.08`.
-/

/-- An unreduced nonnegative fraction `n / d`.  All finite JS numbers in the
duration computation of `parseAbcSimple` are of this shape. -/
structure Frac where
  n : ℕ
  d : ℕ
deriving DecidableEq, Repr

/-- Value order on fractions by cross multiplication (valid for the
denominators `≠ 0` that the operations below maintain). -/
def fleB (a b : Frac) : Bool := decide (a.n * b.d ≤ b.n * a.d)

/-- A JavaScript number as it can occur in the ABC duration computation:
a nonnegative rational (held exactly), `Infinity`, or `NaN`. -/
inductive JsVal where
  | num (x : Frac)
  | inf
  | nan
deriving DecidableEq, Repr

/-- The smallest nonnegative value that rounds to `Infinity` as a double:
`2^1024 - 2^970` (the midpoint between the largest finite double and
`2^1024`; the tie rounds to the even side, `Infinity`). -/
def jsOverflowNum : ℕ := 2 ^ 1024 - 2 ^ 970

/-- The reciprocal of the largest positive value that rounds to `+0` as a
double: a value `v` rounds to zero iff `v ≤ 2^-1075` (the midpoint between
`0` and the smallest subnormal; the tie rounds to the even side, `0`). -/
def jsUnderflowDen : ℕ := 2 ^ 1075

/-- Rounding classification of a nonnegative exact value as a double:
saturate to `Infinity` at or above the overflow threshold, flush to `+0` at
or below the underflow threshold, otherwise keep the exact value.  Applied
to every `parseInt` result, product, and quotient. -/
def mkJsNum (x : Frac) : JsVal :=
  if jsOverflowNum * x.d ≤ x.n then .inf
  else if x.n * jsUnderflowDen ≤ x.d then .num ⟨0, 1⟩
  else .num x

/-- A `parseInt`-produced integer entering double arithmetic (JS stores the
rounded double; values of 309 or more digits saturate to `Infinity`). -/
def toJs (k : ℕ) : JsVal := mkJsNum ⟨k, 1⟩

/-- JS division on this domain: `a / 0 = Infinity` for `a ≠ 0`, `0 / 0 = NaN`,
`a / Infinity = 0`, `Infinity / a = Infinity`, `NaN` propagates; a finite
quotient overflows or underflows per `mkJsNum`. -/
def jsDiv : JsVal → JsVal → JsVal
  | .num a, .num b =>
    if b.n = 0 then (if a.n = 0 then .nan else .inf)
    else mkJsNum ⟨a.n * b.d, a.d * b.n⟩
  | .num _, .inf => .num ⟨0, 1⟩
  | .inf, .num _ => .inf
  | .inf, .inf => .nan
  | .nan, _ => .nan
  | _, .nan => .nan

/-- JS multiplication on this domain: `0 * Infinity = NaN`, otherwise
`Infinity` absorbs, `NaN` propagates; a finite product overflows or
underflows per `mkJsNum`. -/
def jsMul : JsVal → JsVal → JsVal
  | .num a, .num b => mkJsNum ⟨a.n * b.n, a.d * b.d⟩
  | .num a, .inf => if a.n = 0 then .nan else .inf
  | .inf, .num b => if b.n = 0 then .nan else .inf
  | .inf, .inf => .inf
  | .nan, _ => .nan
  | _, .nan => .nan

/-- JS `Math.min` on this domain (`NaN` propagates). -/
def jsMin : JsVal → JsVal → JsVal
  | .num a, .num b => if fleB a b then .num a else .num b
  | .num a, .inf => .num a
  | .inf, .num b => .num b
  | .inf, .inf => .inf
  | .nan, _ => .nan
  | _, .nan => .nan

/-- JS `Math.max` on this domain (`NaN` propagates). -/
def jsMax : JsVal → JsVal → JsVal
  | .num a, .num b => if fleB a b then .num b else .num a
  | .num _, .inf => .inf
  | .inf, .num _ => .inf
  | .inf, .inf => .inf
  | .nan, _ => .nan
  | _, .nan => .nan

/-- The set of characters removed by JS `String.prototype.trim` that can
occur here (the lines being trimmed contain no further exotic whitespace). -/
def isJsWs (c : Char) : Bool :=
  c = ' ' || c = '\t' || c = '\r' || c = '\x0b' || c = '\x0c'

/-- JS `trim` on a line (drop leading and trailing whitespace). -/
def jsTrim (l : List Char) : List Char :=
  ((l.dropWhile isJsWs).reverse.dropWhile isJsWs).reverse

/-- JS `split(/\r?\n/)`: cut at every `"\r\n"` or `"\n"`; a lone `'\r'`
stays inside its line.  The accumulator holds the current line reversed. -/
def splitLinesAux : List Char → List Char → List (List Char)
  | [], acc => [acc.reverse]
  | '\r' :: '\n' :: rest, acc => acc.reverse :: splitLinesAux rest []
  | '\n' :: rest, acc => acc.reverse :: splitLinesAux rest []
  | c :: rest, acc => splitLinesAux rest (c :: acc)

/-- The numeric value of a digit string (`parseInt` on a `\d+` match). -/
def natOfDigits (ds : List Char) : ℕ :=
  ds.foldl (fun a c => a * 10 + (c.toNat - 48)) 0

/-- The parsed `L:` and `Q:` header state of `parseAbcSimple`
(`defaultLen = Lnum/Lden`, `qNote = Qnum/Qden`, `qBpm = Qbpm`). -/
structure AbcHeaders where
  Lnum : ℕ
  Lden : ℕ
  Qnum : ℕ
  Qden : ℕ
  Qbpm : ℕ
deriving DecidableEq, Repr

/-- The initial header values of `parseAbcSimple`: `L:1/8`, `Q:1/4=120`. -/
def defaultAbcHeaders : AbcHeaders := ⟨1, 8, 1, 4, 120⟩

/-- Match of the regex `(\d+)\/(\d+)` at the start of the input. -/
def matchFracAt (cs : List Char) : Option (ℕ × ℕ) :=
  let (ds, r) := cs.span Char.isDigit
  if ds.isEmpty then none
  else
    match r with
    | '/' :: r2 =>
      let (ds2, _) := r2.span Char.isDigit
      if ds2.isEmpty then none else some (natOfDigits ds, natOfDigits ds2)
    | _ => none

/-- Unanchored (leftmost) search of `(\d+)\/(\d+)`, as `String.match` does. -/
def searchFrac : List Char → Option (ℕ × ℕ)
  | [] => none
  | c :: rest =>
    match matchFracAt (c :: rest) with
    | some r => some r
    | none => searchFrac rest

/-- Match of the regex `(\d+)\/(\d+)\s*=\s*(\d+)` at the start of the input. -/
def matchQ1At (cs : List Char) : Option (ℕ × ℕ × ℕ) :=
  let (ds1, r1) := cs.span Char.isDigit
  if ds1.isEmpty then none
  else
    match r1 with
    | '/' :: r2 =>
      let (ds2, r3) := r2.span Char.isDigit
      if ds2.isEmpty then none
      else
        match r3.dropWhile isJsWs with
        | '=' :: r5 =>
          let (ds3, _) := (r5.dropWhile isJsWs).span Char.isDigit
          if ds3.isEmpty then none
          else some (natOfDigits ds1, natOfDigits ds2, natOfDigits ds3)
        | _ => none
    | _ => none

/-- Leftmost search of `(\d+)\/(\d+)\s*=\s*(\d+)`. -/
def searchQ1 : List Char → Option (ℕ × ℕ × ℕ)
  | [] => none
  | c :: rest =>
    match matchQ1At (c :: rest) with
    | some r => some r
    | none => searchQ1 rest

/-- Leftmost search of `(\d+)` (the fallback `Q:` pattern). -/
def searchDigits (cs : List Char) : Option ℕ :=
  match (cs.dropWhile (fun c => !c.isDigit)).span Char.isDigit with
  | ([], _) => none
  | (ds, _) => some (natOfDigits ds)

/-- Whether the raw line starts with the two characters `a`, `b`
(JS `ln.startsWith('L:')` and `ln.startsWith('Q:')`). -/
def startsWith2 (a b : Char) : List Char → Bool
  | x :: y :: _ => x = a && y = b
  | _ => false

/-- One iteration of the header loop of `parseAbcSimple`: an `L:` line with a
fraction replaces `defaultLen`; a `Q:` line sets tempo from `n/d=bpm`, or from
its first digit run (then `qNote` is reset to `1/4`); later lines override
earlier ones. -/
def parseHeaderLine (h : AbcHeaders) (ln : List Char) : AbcHeaders :=
  let h1 :=
    if startsWith2 'L' ':' ln then
      match searchFrac (jsTrim (ln.drop 2)) with
      | some (nn, dd) => { h with Lnum := nn, Lden := dd }
      | none => h
    else h
  if startsWith2 'Q' ':' ln then
    let qraw := jsTrim (ln.drop 2)
    match searchQ1 qraw with
    | some (nn, dd, bpm) => { h1 with Qnum := nn, Qden := dd, Qbpm := bpm }
    | none =>
      match searchDigits qraw with
      | some bpm => { h1 with Qnum := 1, Qden := 4, Qbpm := bpm }
      | none => h1
  else h1

/-- Test of `/^[A-Z]:/` on a (trimmed) line, used to filter header lines out
of the tune content. -/
def isHeaderLine (l : List Char) : Bool :=
  match l with
  | c :: d :: _ => c.isUpper && d = ':'
  | _ => false

/-- The duration suffix of a note token, as matched by the fourth group
`(\d+(?:\/\d+)?|\/\d+|\/+)?` of the token regex.  `slashes k` stands for a
run of `k + 1` slashes (the regex guarantees at least one). -/
inductive DurTok where
  | noTok
  | slashes (k : ℕ)
  | slashNum (d : ℕ)
  | frac (n : ℕ) (d : Option ℕ)
deriving DecidableEq, Repr

/-- One matched note token: accidental characters, pitch letter, octave
modifier characters, duration suffix. -/
structure AbcTok where
  accidental : List Char
  letter : Char
  octMods : List Char
  dur : DurTok
deriving DecidableEq, Repr

/-- Greedy match of the duration group `(\d+(?:\/\d+)?|\/\d+|\/+)?`:
digits optionally followed by `/digits`; or `/digits`; or a slash run;
or nothing.  Returns the token and the remaining input. -/
def matchDur (cs : List Char) : DurTok × List Char :=
  match cs with
  | [] => (.noTok, [])
  | c :: rest =>
    if c.isDigit then
      let (ds, r) := cs.span Char.isDigit
      match r with
      | '/' :: r2 =>
        let (ds2, r3) := r2.span Char.isDigit
        if ds2.isEmpty then (.frac (natOfDigits ds) none, r)
        else (.frac (natOfDigits ds) (some (natOfDigits ds2)), r3)
      | _ => (.frac (natOfDigits ds) none, r)
    else if c = '/' then
      match rest with
      | d :: _ =>
        if d.isDigit then
          let (ds, r) := rest.span Char.isDigit
          (.slashNum (natOfDigits ds), r)
        else
          let (sl, r) := cs.span (fun x => x = '/')
          (.slashes (sl.length - 1), r)
      | [] => (.slashes 0, [])
    else (.noTok, cs)

/-- A pitch letter `[A-Ga-g]`. -/
def isAbcLetter (c : Char) : Bool :=
  ('A' ≤ c && c ≤ 'G') || ('a' ≤ c && c ≤ 'g')

/-- An accidental character `[_=^]`. -/
def isAccChar (c : Char) : Bool := c = '_' || c = '=' || c = '^'

/-- Match of the token after the accidental group: pitch letter, greedy
octave modifier run `[',]*`, duration group. -/
def matchNoteBody (cs : List Char) : Option ((Char × List Char × DurTok) × List Char) :=
  match cs with
  | [] => none
  | c :: rest =>
    if isAbcLetter c then
      let (octs, r1) := rest.span (fun x => x = '\'' || x = ',')
      let (dur, r2) := matchDur r1
      some ((c, octs, dur), r2)
    else none

/-- Attach a matched accidental to a matched note body. -/
def tokWithAcc (acc : List Char) (cs : List Char) : Option (AbcTok × List Char) :=
  (matchNoteBody cs).map (fun p => (⟨acc, p.1.1, p.1.2.1, p.1.2.2⟩, p.2))

/-- Match of the full token regex
`([_=^]{1,2}|=)?([A-Ga-g])([',]*)(\d+(?:\/\d+)?|\/\d+|\/+)?` at the start of
the input, with the backtracking order of the optional greedy first group:
two accidental characters, then one, then none. -/
def tryMatchTok (cs : List Char) : Option (AbcTok × List Char) :=
  match cs with
  | [] => none
  | a :: rest =>
    if isAccChar a then
      (match rest with
       | b :: rest2 => if isAccChar b then tokWithAcc [a, b] rest2 else none
       | [] => none).orElse
        (fun _ => (tokWithAcc [a] rest).orElse (fun _ => tokWithAcc [] cs))
    else tokWithAcc [] cs

/-- The `tokenRe.exec` scan loop: try a match at the current position; on
success continue after the match, otherwise advance one character.  Each
match consumes at least one character, so fuel `= length` is exact. -/
def scanTokensF : ℕ → List Char → List AbcTok
  | 0, _ => []
  | _ + 1, [] => []
  | fuel + 1, c :: rest =>
    match tryMatchTok (c :: rest) with
    | some (t, r) => t :: scanTokensF fuel r
    | none => scanTokensF fuel rest

/-- All note tokens of the content string, in order. -/
def scanTokens (cs : List Char) : List AbcTok := scanTokensF cs.length cs

/-- `durationFromToken` of `parseAbcSimple`: absent token `0.3`; a single
slash `0.15`; a slash run `0.15 / length`; `/digits` falls through to `0.3`;
`n` or `n/d` scales the default note length by the tempo
(`Math.max(0.08, Math.min(1.5, secPerWhole * base * frac))`).  Every parsed
integer (header values, token numerator and denominator, run length) enters
double arithmetic through `toJs`, so `parseInt` results of 309 or more
digits become `Infinity` here as in JS; the `qBpm` clamp is computed on the
exact integer, which agrees with the double clamp (integers up to 300 are
exact doubles, and rounding cannot take a larger value below 300). -/
def durationFromToken (hdr : AbcHeaders) (tok : DurTok) : JsVal :=
  match tok with
  | .noTok => .num ⟨3, 10⟩
  | .slashes k => jsDiv (.num ⟨3, 20⟩) (toJs (k + 1))
  | .slashNum _ => .num ⟨3, 10⟩
  | .frac nn dOpt =>
    let dd : ℕ := dOpt.getD 1
    let frac := jsDiv (toJs nn) (toJs dd)
    let base := jsDiv (toJs hdr.Lnum) (toJs hdr.Lden)
    let qFraction := jsDiv (toJs hdr.Qnum) (toJs hdr.Qden)
    let secPerQNote := jsDiv (toJs 60) (toJs (max 30 (min 300 hdr.Qbpm)))
    let secPerWhole := jsMul (jsDiv (.num ⟨1, 1⟩) qFraction) secPerQNote
    jsMax (.num ⟨2, 25⟩) (jsMin (.num ⟨3, 2⟩) (jsMul (jsMul secPerWhole base) frac))

/-- One parsed note of `parseAbcSimple`: `{ midi, seconds }`. -/
structure AbcNote where
  midi : ℤ
  seconds : JsVal
deriving DecidableEq, Repr

/-- The base midi numbers `{ C:60, D:62, E:64, F:65, G:67, A:69, B:71 }`. -/
def baseMidiUpper (c : Char) : Option ℤ :=
  if c = 'C' then some 60
  else if c = 'D' then some 62
  else if c = 'E' then some 64
  else if c = 'F' then some 65
  else if c = 'G' then some 67
  else if c = 'A' then some 69
  else if c = 'B' then some 71
  else none

/-- Octave shift of the modifier run: apostrophes up an octave, commas down. -/
def octShift (octs : List Char) : ℤ :=
  octs.foldl (fun a c => if c = '\'' then a + 12 else if c = ',' then a - 12 else a) 0

/-- Accidental shift: `^` +1, `^^` +2, `_` -1, `__` -2, anything else 0. -/
def accShift (acc : List Char) : ℤ :=
  if acc = ['^'] then 1
  else if acc = ['^', '^'] then 2
  else if acc = ['_'] then -1
  else if acc = ['_', '_'] then -2
  else 0

/-- Turn one matched token into a note (lowercase letters an octave up),
skipping letters without a base midi number as the source loop does. -/
def tokToNote (hdr : AbcHeaders) (t : AbcTok) : Option AbcNote :=
  match baseMidiUpper t.letter.toUpper with
  | none => none
  | some base =>
    some ⟨base + (if t.letter.isLower then 12 else 0) + octShift t.octMods + accShift t.accidental,
          durationFromToken hdr t.dur⟩

/-- The lines of the ABC text (JS `abcText.split(/\r?\n/)`). -/
def abcLines (text : String) : List (List Char) := splitLinesAux text.toList []

/-- The header state after the header loop of `parseAbcSimple`. -/
def abcHeadersOf (text : String) : AbcHeaders :=
  (abcLines text).foldl parseHeaderLine defaultAbcHeaders

/-- The tune content: lines whose trimmed form matches `/^[A-Z]:/` are
dropped, the rest joined with a space. -/
def abcContentOf (text : String) : List Char :=
  List.intercalate [' '] ((abcLines text).filter (fun l => !(isHeaderLine (jsTrim l))))

/-- The notes produced from a content string under a given header state. -/
def abcNotesWith (hdr : AbcHeaders) (content : List Char) : List AbcNote :=
  (scanTokens content).filterMap (tokToNote hdr)

/-- `parseAbcSimple` of `SymphonyPlayer.js`: read headers, filter them out of
the content, tokenize, and map tokens to `{ midi, seconds }` notes. -/
def parseAbcSimple (text : String) : List AbcNote :=
  abcNotesWith (abcHeadersOf text) (abcContentOf text)

/-- `parseAbcToNotes`: the simple parse result if nonempty, else the empty
list (the heavy fallback path is skipped by the source). -/
def parseAbcToNotes (text : String) : List AbcNote :=
  let simple := parseAbcSimple text
  if simple.length > 0 then simple else []

/-!
The `SymphonyPlayer` module keeps a singleton state
`{ audioContext, notes, cursor, piano, masterGain, dryGain, wetGain,
convolver }`.  WebAudio objects are embedded as booleans recording whether
the corresponding field is non-null; the environment records whether
`getOrCreateAudioContext()` can return a context (it catches construction
failures and returns `null`), whether the soundfont piano load resolves, and
the outcome of fetching the ABC text.  A JS exception escaping a call is
modelled by a `threw` flag alongside the mutated state, since the singleton
state keeps every mutation made before the throw.
-/

/-- The mutable singleton state of `SymphonyPlayer.js`. -/
structure SPState where
  audioContext : Bool
  notes : List AbcNote
  cursor : ℕ
  piano : Bool
  masterGain : Bool
  dryGain : Bool
  wetGain : Bool
  convolver : Bool
deriving DecidableEq, Repr

/-- The state at module load: every field null, no notes, cursor 0. -/
def initialSPState : SPState := ⟨false, [], 0, false, false, false, false, false⟩

/-- The environment of one call into the player. -/
structure AudioEnv where
  canCreate : Bool
  pianoLoadOk : Bool
  fetch : Except Unit String
deriving Repr

/-- What sound a call produced. -/
inductive AudioEffect where
  | silent
  | tone (midi : ℤ)
  | piano (midi : ℤ)
deriving DecidableEq, Repr

/-- `ensureFxChain(ctx)`: create each missing node of the FX chain in order
(master gain, dry gain, wet gain, convolver).  Creating a node on a `null`
context throws a `TypeError` (second component `false`), keeping the nodes
already created. -/
def ensureFxChain (ctx : Bool) (s : SPState) : SPState × Bool :=
  if !s.masterGain && !ctx then (s, false)
  else if !s.dryGain && !ctx then ({ s with masterGain := true }, false)
  else if !s.wetGain && !ctx then ({ s with masterGain := true, dryGain := true }, false)
  else if !s.convolver && !ctx then
    ({ s with masterGain := true, dryGain := true, wetGain := true }, false)
  else ({ s with masterGain := true, dryGain := true, wetGain := true, convolver := true }, true)

/-- `playTone(midi, durationSec)`: take the shared context or create one;
if none is available return silently; otherwise emit a sine tone.  No
statement in its body can throw once the `!ctx` guard has passed. -/
def playTone (env : AudioEnv) (s : SPState) (midi : ℤ) (_durationSec : JsVal) :
    SPState × AudioEffect :=
  let ctx := s.audioContext || env.canCreate
  if !ctx then (s, .silent)
  else ({ s with audioContext := true }, .tone midi)

/-- The result of one `playNextNote()` call: the state after the call, the
note read from the list (`none` when the call returned early on an empty
list), the sound produced, and whether a `TypeError` escaped the call. -/
structure PNResult where
  state : SPState
  selected : Option AbcNote
  effect : AudioEffect
  threw : Bool
deriving DecidableEq, Repr

/-- Lines 417-446 of `playNextNote` (after the cursor update): obtain the
context, resume it (guarded, never throws), run `ensureFxChain` (the only
statement that can throw), then play through the piano if loaded and a
context exists, else fall back to `playTone`. -/
def playNextNoteAudio (env : AudioEnv) (s : SPState) (nt : AbcNote) :
    SPState × AudioEffect × Bool :=
  let ctxAvail := s.audioContext || env.canCreate
  let s2 := { s with audioContext := ctxAvail }
  let fx := ensureFxChain ctxAvail s2
  if fx.2 = false then (fx.1, .silent, true)
  else if fx.1.piano && ctxAvail then (fx.1, .piano nt.midi, false)
  else
    let t := playTone env fx.1 nt.midi nt.seconds
    (t.1, t.2, false)

/-- `SymphonyPlayer.playNextNote()`: return immediately when the note list
is missing or empty; otherwise read `notes[cursor % length]`, advance the
cursor to `(idx + 1) % length`, and run the audio part. -/
def SymphonyPlayer.playNextNote (env : AudioEnv) (s : SPState) : PNResult :=
  if h : s.notes.length = 0 then ⟨s, none, .silent, false⟩
  else
    let idx := s.cursor % s.notes.length
    let nt := s.notes.get ⟨idx, Nat.mod_lt _ (Nat.pos_of_ne_zero h)⟩
    let s1 := { s with cursor := (idx + 1) % s.notes.length }
    let a := playNextNoteAudio env s1 nt
    ⟨a.1, some nt, a.2.1, a.2.2⟩

/-- `SymphonyPlayer.init(filename)`: set the shared context, build the FX
chain, lazily load the piano (its own failure only clears `piano`), fetch
and parse the ABC text, then store the notes with cursor 0.  Any exception
(FX chain on a `null` context, fetch failure) is caught and leaves the
player silent: `notes = []`, `cursor = 0`, returning `false`. -/
def SymphonyPlayer.init (env : AudioEnv) (s : SPState) : SPState × Bool :=
  let s0 := { s with audioContext := env.canCreate }
  let fx := ensureFxChain env.canCreate s0
  if fx.2 = false then ({ fx.1 with notes := [], cursor := 0 }, false)
  else
    let s2 := if fx.1.piano then fx.1 else { fx.1 with piano := env.pianoLoadOk }
    match env.fetch with
    | .error _ => ({ s2 with notes := [], cursor := 0 }, false)
    | .ok abc =>
      let notes := parseAbcToNotes abc
      ({ s2 with notes := notes, cursor := 0 }, decide (0 < notes.length))

/-- Iterated `playNextNote` calls (the state reached after `k` calls). -/
def runAdvance (env : AudioEnv) (s : SPState) : ℕ → SPState
  | 0 => s
  | k + 1 => runAdvance env (SymphonyPlayer.playNextNote env s).state k

/-- All four FX chain nodes exist. -/
def fxAll (s : SPState) : Bool := s.masterGain && s.dryGain && s.wetGain && s.convolver

/-- The player invariant: whenever notes are loaded, either the shared
context is set or the whole FX chain already exists.  It holds initially,
`init` establishes it from any state, and `playNextNote` preserves it; under
it no call can reach `ensureFxChain`'s null-context throw. -/
def spInv (s : SPState) : Prop :=
  s.notes ≠ [] → (s.audioContext = true ∨ fxAll s = true)

instance (s : SPState) : Decidable (spInv s) := by
  unfold spInv
  infer_instance

/-!
The `BubbleAnimation` component of `BubbleAnimation.jsx`: the bubble list
with its cap, the FIFO message queue with its drain loop, and the pop
sound. -/

/-- `MAX_BUBBLES` of `BubbleAnimation.jsx`. -/
def MAX_BUBBLES : ℕ := 12

/-- One displayed bubble (the fields relevant to identity and order). -/
structure Bubble where
  id : ℕ
  message : String
deriving DecidableEq, Repr

/-- The list update of `addBubble`: append the new bubble; if the list now
exceeds `MAX_BUBBLES`, keep only the last `MAX_BUBBLES`
(`newBubbles.slice(-MAX_BUBBLES)`). -/
def addBubble (bubbles : List Bubble) (b : Bubble) : List Bubble :=
  let newBubbles := bubbles ++ [b]
  if MAX_BUBBLES < newBubbles.length then
    newBubbles.drop (newBubbles.length - MAX_BUBBLES)
  else newBubbles

/-- The expiry callback scheduled by `addBubble`: after the lifetime the
bubble with the given id is filtered out. -/
def expireBubble (bubbles : List Bubble) (i : ℕ) : List Bubble :=
  bubbles.filter (fun b => b.id != i)

/-- An operation on the bubble list: an `addBubble` call or the firing of an
expiry timeout. -/
inductive BubbleOp where
  | add (b : Bubble)
  | expire (i : ℕ)
deriving DecidableEq, Repr

/-- Apply one bubble operation. -/
def applyBubbleOp (bs : List Bubble) : BubbleOp → List Bubble
  | .add b => addBubble bs b
  | .expire i => expireBubble bs i

/-- Apply a sequence of bubble operations in order. -/
def applyBubbleOps (bs : List Bubble) (ops : List BubbleOp) : List Bubble :=
  ops.foldl applyBubbleOp bs

/-- One queued message (`messageQueueRef.current` entry). -/
structure QMsg where
  message : String
  id : ℕ
  eventType : String
deriving DecidableEq, Repr

/-- `messageQueueRef.current.push(...)`: append at the tail. -/
def enqueueMsg (q : List QMsg) (m : QMsg) : List QMsg := q ++ [m]

/-- The drain loop state: the pending queue and the messages already
presented (each `addBubble` call of `processNext`), in presentation order. -/
structure DrainState where
  queue : List QMsg
  presented : List QMsg
deriving DecidableEq, Repr

/-- One `processNext` step of `processMessageQueue`: `shift()` the head,
present it, and schedule the next step after the 100 ms inter-item delay;
with an empty queue the loop stops. -/
def processNextStep (st : DrainState) : DrainState :=
  match st.queue with
  | [] => st
  | m :: rest => ⟨rest, st.presented ++ [m]⟩

/-- The drain state after `k` steps of the loop. -/
def drainSteps (st : DrainState) : ℕ → DrainState
  | 0 => st
  | k + 1 => drainSteps (processNextStep st) k

/-- The local state of the pop sound path: the shared context ref and the
lazily created fallback `Audio` element. -/
structure PopState where
  audioContext : Bool
  soundLoaded : Bool
deriving DecidableEq, Repr

/-- The sound produced by one `playPopSound` call. -/
inductive PopEffect where
  | silent
  | webAudio
  | fileAudio
deriving DecidableEq, Repr

/-- The environment of one `playPopSound` call. -/
structure PopEnv where
  canCreate : Bool
  fileAudioOk : Bool
deriving DecidableEq, Repr

/-- The body of `playPopSound`'s outer `try`: obtain or create the shared
context (throwing `NoAudioContext` when unavailable, modelled as `none`),
then emit the oscillator pop. -/
def playPopSoundTry (env : PopEnv) (p : PopState) : Option (PopState × PopEffect) :=
  let ctx := p.audioContext || env.canCreate
  if !ctx then none
  else some ({ p with audioContext := true }, .webAudio)

/-- `playPopSound`: nothing when sound is disabled; otherwise the WebAudio
pop, and on its failure the file-audio fallback whose own failures are
swallowed.  The third component records whether an exception escaped the
call. -/
def playPopSound (env : PopEnv) (soundEnabled : Bool) (p : PopState) :
    PopState × PopEffect × Bool :=
  if !soundEnabled then (p, .silent, false)
  else
    match playPopSoundTry env p with
    | some (p2, e) => (p2, e, false)
    | none =>
      if env.fileAudioOk then ({ p with soundLoaded := true }, .fileAudio, false)
      else (p, .silent, false)

/-!
The `Dashboard` component of `Dashboard.jsx`: the stats snapshot state with
its increment counters, the debounced stats refresh of the `checkin_event`
handler, and the `checkin_poke` handler. -/

/-- The authoritative stats snapshot returned by `/stats`. -/
structure StatsSnapshot where
  total_attendees : ℕ
  event_checkins : ℕ
  session_checkins : ℕ
deriving DecidableEq, Repr

/-- The dashboard stats state: the last snapshot and the two increment
counters accumulated from push events since that snapshot. -/
structure StatsState where
  stats : StatsSnapshot
  eventIncrement : ℕ
  sessionIncrement : ℕ
deriving DecidableEq, Repr

/-- The success path of `fetchStats`: `setStats(data)`, then both increments
are reset to zero. -/
def fetchStatsSuccess (_st : StatsState) (data : StatsSnapshot) : StatsState :=
  ⟨data, 0, 0⟩

/-- The event check-in count rendered by `StatsDisplay`:
`(stats.event_checkins || 0) + (eventIncrement || 0)` (both fields are
numbers here, so `|| 0` is the identity). -/
def displayedEventCheckins (st : StatsState) : ℕ :=
  st.stats.event_checkins + st.eventIncrement

/-- The session check-in count rendered by `StatsDisplay`. -/
def displayedSessionCheckins (st : StatsState) : ℕ :=
  st.stats.session_checkins + st.sessionIncrement

/-- The debounce delay of the stats refresh scheduled by the
`checkin_event` handler (ms). -/
def statsRefreshDelayCheckin : ℕ := 10000

/-- The timer state of the debounced stats refresh: the absolute time the
pending timeout would fire (if any), and the times at which a refresh has
fired, in order. -/
structure DebounceState where
  pendingAt : Option ℕ
  fired : List ℕ
deriving DecidableEq, Repr

/-- No pending refresh, none fired yet. -/
def debounceInit : DebounceState := ⟨none, []⟩

/-- A `checkin_event` arriving at time `t`: a pending timeout whose fire
time has already been reached has fired; then the handler clears any still
pending timeout (`clearTimeout`) and arms a new one a full delay after `t`
(`setTimeout(..., 10000)`). -/
def onCheckinEvent (t : ℕ) (st : DebounceState) : DebounceState :=
  let st1 : DebounceState :=
    match st.pendingAt with
    | some p => if p ≤ t then ⟨none, st.fired ++ [p]⟩ else st
    | none => st
  ⟨some (t + statsRefreshDelayCheckin), st1.fired⟩

/-- After the last event, a still pending timeout eventually fires. -/
def flushPending (st : DebounceState) : List ℕ :=
  match st.pendingAt with
  | some p => st.fired ++ [p]
  | none => st.fired

/-- All stats-refresh fire times produced by a sequence of `checkin_event`
arrivals (in arrival order), starting with no pending timer. -/
def fetchTimes (ts : List ℕ) : List ℕ :=
  flushPending (ts.foldl (fun st t => onCheckinEvent t st) debounceInit)

/-- The payload of a `checkin_poke` push (`data` may also be `null`,
modelled by `Option` at the use site; `resource_ids` is checked with
`Array.isArray`, modelled by `Option`). -/
structure PokeData where
  event_id : String
  resource_ids : Option (List String)
deriving DecidableEq, Repr

/-- The client state the `checkin_poke` handler can touch synchronously. -/
structure DashState where
  messageCounter : ℕ
  currentBubbleMessage : Option QMsg
  eventIncrement : ℕ
  sessionIncrement : ℕ
  recentCheckinSessionId : Option String
  pendingStatsRefreshAt : Option ℕ
deriving DecidableEq, Repr

/-- A side request issued by the `checkin_poke` handler. -/
inductive DashAction where
  | enrichFetch (resourceId : String)
deriving DecidableEq, Repr

/-- The synchronous part of the `checkin_poke` handler: return unchanged on
a null payload or an `event_id` differing (as a string) from the subscribed
event; otherwise issue the enrichment lookup for the first resource id (its
asynchronous continuation is not part of this step) and re-arm the debounced
stats refresh. -/
def handleCheckinPoke (now : ℕ) (currentEventId : String) (st : DashState)
    (data : Option PokeData) : DashState × List DashAction :=
  match data with
  | none => (st, [])
  | some d =>
    if d.event_id ≠ currentEventId then (st, [])
    else
      let resourceIds := d.resource_ids.getD []
      let acts :=
        match resourceIds with
        | [] => []
        | rid :: _ => [DashAction.enrichFetch rid]
      ({ st with pendingStatsRefreshAt := some (now + 3000) }, acts)

/-!
Helper lemmas about the sequencer model.
-/

lemma ensureFxChain_preserve (ctx : Bool) (s : SPState) :
    (ensureFxChain ctx s).1.notes = s.notes ∧ (ensureFxChain ctx s).1.cursor = s.cursor ∧
    (ensureFxChain ctx s).1.audioContext = s.audioContext ∧
    (ensureFxChain ctx s).1.piano = s.piano := by
  unfold ensureFxChain
  split_ifs <;> simp

lemma ensureFxChain_ok_ctx (s : SPState) : (ensureFxChain true s).2 = true := by
  unfold ensureFxChain
  simp

lemma ensureFxChain_ok_fxAll (ctx : Bool) (s : SPState) (h : fxAll s = true) :
    (ensureFxChain ctx s).2 = true := by
  unfold fxAll at h
  simp only [Bool.and_eq_true] at h
  unfold ensureFxChain
  simp [h.1.1.1, h.1.1.2, h.1.2, h.2]

lemma ensureFxChain_fxAll_mono (ctx : Bool) (s : SPState) (h : fxAll s = true) :
    fxAll (ensureFxChain ctx s).1 = true := by
  unfold fxAll at h ⊢
  simp only [Bool.and_eq_true] at h
  unfold ensureFxChain
  simp [h.1.1.1, h.1.1.2, h.1.2, h.2]

lemma ensureFxChain_fxAll_of_ok (ctx : Bool) (s : SPState)
    (h : (ensureFxChain ctx s).2 = true) : fxAll (ensureFxChain ctx s).1 = true := by
  unfold ensureFxChain at h ⊢
  split_ifs at h ⊢
  simp_all [fxAll]

lemma playTone_preserve (env : AudioEnv) (s : SPState) (midi : ℤ) (dur : JsVal) :
    (playTone env s midi dur).1.notes = s.notes ∧
    (playTone env s midi dur).1.cursor = s.cursor := by
  unfold playTone
  dsimp only
  split <;> simp

lemma playNextNoteAudio_preserve (env : AudioEnv) (s : SPState) (nt : AbcNote) :
    (playNextNoteAudio env s nt).1.notes = s.notes ∧
    (playNextNoteAudio env s nt).1.cursor = s.cursor := by
  unfold playNextNoteAudio
  dsimp only
  split_ifs with h1 h2
  · exact ⟨(ensureFxChain_preserve _ _).1, (ensureFxChain_preserve _ _).2.1⟩
  · exact ⟨(ensureFxChain_preserve _ _).1, (ensureFxChain_preserve _ _).2.1⟩
  · constructor
    · exact ((playTone_preserve _ _ _ _).1).trans (ensureFxChain_preserve _ _).1
    · exact ((playTone_preserve _ _ _ _).2).trans (ensureFxChain_preserve _ _).2.1

lemma playNextNote_step (env : AudioEnv) (s : SPState) (h : ¬ s.notes.length = 0) :
    (SymphonyPlayer.playNextNote env s).state.notes = s.notes ∧
    (SymphonyPlayer.playNextNote env s).state.cursor
      = (s.cursor % s.notes.length + 1) % s.notes.length ∧
    (SymphonyPlayer.playNextNote env s).selected
      = s.notes[s.cursor % s.notes.length]? := by
  unfold SymphonyPlayer.playNextNote
  rw [dif_neg h]
  dsimp only
  refine ⟨?_, ?_, ?_⟩
  · exact ((playNextNoteAudio_preserve _ _ _).1).trans rfl
  · exact ((playNextNoteAudio_preserve _ _ _).2).trans rfl
  · have hlt : s.cursor % s.notes.length < s.notes.length :=
      Nat.mod_lt _ (Nat.pos_of_ne_zero h)
    simp [List.getElem?_eq_getElem hlt, List.get_eq_getElem]

lemma mod_succ_add (c k n : ℕ) : ((c % n + 1) % n + k) % n = (c + 1 + k) % n := by
  have h2 : (c % n + 1) % n ≡ c + 1 [MOD n] :=
    (Nat.mod_modEq _ n).trans ((Nat.mod_modEq c n).add_right 1)
  exact h2.add_right k

lemma runAdvance_fresh (env : AudioEnv) :
    ∀ (k : ℕ) (s : SPState), s.notes ≠ [] →
      (runAdvance env s (k + 1)).notes = s.notes ∧
      (runAdvance env s (k + 1)).cursor = (s.cursor + 1 + k) % s.notes.length := by
  intro k
  induction k with
  | zero =>
    intro s hs
    have h0 : ¬ s.notes.length = 0 := by
      simpa [List.length_eq_zero] using hs
    have hstep := playNextNote_step env s h0
    refine ⟨hstep.1, ?_⟩
    have : (s.cursor % s.notes.length + 1) % s.notes.length
        = (s.cursor + 1 + 0) % s.notes.length := by
      simp
    simpa [runAdvance, this] using hstep.2.1
  | succ k ih =>
    intro s hs
    have h0 : ¬ s.notes.length = 0 := by
      simpa [List.length_eq_zero] using hs
    have hstep := playNextNote_step env s h0
    have hne2 : (SymphonyPlayer.playNextNote env s).state.notes ≠ [] := by
      rw [hstep.1]; exact hs
    have ih2 := ih (SymphonyPlayer.playNextNote env s).state hne2
    have hruns : runAdvance env s (k + 1 + 1)
        = runAdvance env (SymphonyPlayer.playNextNote env s).state (k + 1) := rfl
    constructor
    · rw [hruns, ih2.1, hstep.1]
    · rw [hruns, ih2.2, hstep.1, hstep.2.1]
      have h1 : (s.cursor % s.notes.length + 1) % s.notes.length + 1 + k
          = (s.cursor % s.notes.length + 1) % s.notes.length + (1 + k) := by omega
      rw [h1, mod_succ_add]
      congr 1
      omega

/-- C1: starting from a freshly loaded song (non-empty note list, cursor 0),
after `k` `playNextNote` calls the cursor equals `k mod len(notes)` and the
notes are unchanged, and the next (that is, `(k+1)`-st, 1-indexed) call reads
`notes[k mod len(notes)]`; equivalently, for `1`-indexed call number
`j = k + 1`, the `j`-th call plays `notes[(j - 1) mod len(notes)]`. -/
theorem symphony_advance_cursor_mod (env : AudioEnv) (s : SPState) (k : ℕ)
    (h0 : s.cursor = 0) (hne : s.notes ≠ []) :
    (runAdvance env s k).notes = s.notes ∧
    (runAdvance env s k).cursor = k % s.notes.length ∧
    (SymphonyPlayer.playNextNote env (runAdvance env s k)).selected
      = s.notes[k % s.notes.length]? := by
  have hmain : (runAdvance env s k).notes = s.notes ∧
      (runAdvance env s k).cursor = k % s.notes.length := by
    cases k with
    | zero =>
      refine ⟨rfl, ?_⟩
      have hlen : 0 < s.notes.length := List.length_pos.mpr hne
      simp [runAdvance, h0, Nat.zero_mod]
    | succ k =>
      have h := runAdvance_fresh env k s hne
      refine ⟨h.1, ?_⟩
      rw [h.2, h0]
      congr 1
      omega
  refine ⟨hmain.1, hmain.2, ?_⟩
  have hne2 : ¬ (runAdvance env s k).notes.length = 0 := by
    rw [hmain.1]
    simpa [List.length_eq_zero] using hne
  have hstep := playNextNote_step env (runAdvance env s k) hne2
  rw [hstep.2.2, hmain.1, hmain.2]
  congr 1
  exact Nat.mod_mod_of_dvd _ dvd_rfl

/-- A four-note song for concrete checks. -/
def demoNotes : List AbcNote :=
  [⟨60, .num ⟨3, 10⟩⟩, ⟨62, .num ⟨3, 10⟩⟩, ⟨64, .num ⟨3, 10⟩⟩, ⟨65, .num ⟨3, 10⟩⟩]

/-- A freshly loaded player holding the four-note song. -/
def demoFresh : SPState := ⟨false, demoNotes, 0, false, false, false, false, false⟩

/-- An environment with a working audio context and a failing song fetch. -/
def demoEnv : AudioEnv := ⟨true, false, Except.error ()⟩

/-- Witness for C1 on the spec's concrete scenario: with a 4-note song, after
four calls the cursor is back at `4 mod 4 = 0` and the fifth call reads
`notes[0]` — the five calls play indices 0, 1, 2, 3, 0. -/
theorem symphony_advance_cursor_mod_witness :
    (runAdvance demoEnv demoFresh 4).notes = demoFresh.notes ∧
    (runAdvance demoEnv demoFresh 4).cursor = 4 % demoFresh.notes.length ∧
    (SymphonyPlayer.playNextNote demoEnv (runAdvance demoEnv demoFresh 4)).selected
      = demoFresh.notes[4 % demoFresh.notes.length]? :=
  symphony_advance_cursor_mod demoEnv demoFresh 4 (by decide) (by decide)

lemma playNextNote_empty_noop (env : AudioEnv) (s : SPState) (h : s.notes = []) :
    SymphonyPlayer.playNextNote env s = ⟨s, none, .silent, false⟩ := by
  unfold SymphonyPlayer.playNextNote
  rw [dif_pos (by simp [h])]

lemma runAdvance_empty (env : AudioEnv) (s : SPState) (h : s.notes = []) :
    ∀ k, runAdvance env s k = s := by
  intro k
  induction k with
  | zero => rfl
  | succ k ih =>
    have h1 : runAdvance env s (k + 1)
        = runAdvance env (SymphonyPlayer.playNextNote env s).state k := rfl
    rw [h1, playNextNote_empty_noop env s h]
    exact ih

/-- C2: `init` always resets the cursor to 0 and replaces the note list
(with the parse of the fetched text, or with `[]` on any failure), and on a
player whose note list is empty every subsequent `playNextNote` call is a
no-op: the state (in particular the cursor) is unchanged after any number of
calls, no note is read, no sound is produced, and nothing is thrown. -/
theorem symphony_init_reset_empty_noop (env : AudioEnv) (s : SPState) :
    (SymphonyPlayer.init env s).1.cursor = 0 ∧
    ((SymphonyPlayer.init env s).1.notes = [] ∨
      ∃ abc, env.fetch = .ok abc ∧
        (SymphonyPlayer.init env s).1.notes = parseAbcToNotes abc) ∧
    (∀ e : Unit, env.fetch = .error e → (SymphonyPlayer.init env s).1.notes = []) ∧
    (∀ s2 : SPState, s2.notes = [] → ∀ env2 : AudioEnv,
      SymphonyPlayer.playNextNote env2 s2 = ⟨s2, none, .silent, false⟩) ∧
    (∀ s2 : SPState, s2.notes = [] → ∀ (env2 : AudioEnv) (k : ℕ),
      runAdvance env2 s2 k = s2) := by
  refine ⟨?_, ?_, ?_, ?_, ?_⟩
  · unfold SymphonyPlayer.init
    dsimp only
    split
    · rfl
    · split <;> rfl
  · unfold SymphonyPlayer.init
    dsimp only
    split
    · exact Or.inl rfl
    · split
      · exact Or.inl rfl
      · next abc heq => exact Or.inr ⟨abc, heq, rfl⟩
  · intro e he
    unfold SymphonyPlayer.init
    dsimp only
    split
    · rfl
    · split
      · rfl
      · next abc heq => rw [he] at heq; cases heq
  · intro s2 h2 env2
    exact playNextNote_empty_noop env2 s2 h2
  · intro s2 h2 env2 k
    exact runAdvance_empty env2 s2 h2 k

/-- Witness for C2: a failing fetch on a player with stale state (cursor 7,
notes loaded) leaves an empty, silent player, and a `playNextNote` call on
it is exactly a no-op. -/
theorem symphony_init_reset_empty_noop_witness :
    (SymphonyPlayer.init ⟨false, false, Except.error ()⟩ ⟨true, demoNotes, 7, true, true, true, true, true⟩).1.cursor = 0 ∧
    (SymphonyPlayer.init ⟨false, false, Except.error ()⟩ ⟨true, demoNotes, 7, true, true, true, true, true⟩).1.notes = [] ∧
    SymphonyPlayer.playNextNote demoEnv (⟨false, [], 3, false, false, false, false, false⟩ : SPState)
      = ⟨⟨false, [], 3, false, false, false, false, false⟩, none, .silent, false⟩ ∧
    runAdvance demoEnv (⟨false, [], 3, false, false, false, false, false⟩ : SPState) 5
      = ⟨false, [], 3, false, false, false, false, false⟩ := by
  have h := symphony_init_reset_empty_noop ⟨false, false, Except.error ()⟩
    ⟨true, demoNotes, 7, true, true, true, true, true⟩
  exact ⟨h.1, h.2.2.1 () rfl,
    h.2.2.2.1 ⟨false, [], 3, false, false, false, false, false⟩ (by decide) demoEnv,
    h.2.2.2.2 ⟨false, [], 3, false, false, false, false, false⟩ (by decide) demoEnv 5⟩

lemma playTone_fxAll (env : AudioEnv) (s : SPState) (midi : ℤ) (dur : JsVal) :
    fxAll (playTone env s midi dur).1 = fxAll s := by
  unfold playTone
  dsimp only
  split <;> simp [fxAll]

lemma playTone_ctx_mono (env : AudioEnv) (s : SPState) (midi : ℤ) (dur : JsVal)
    (h : s.audioContext = true) : (playTone env s midi dur).1.audioContext = true := by
  unfold playTone
  dsimp only
  split
  · exact h
  · rfl

lemma playNextNoteAudio_no_throw (env : AudioEnv) (s : SPState) (nt : AbcNote)
    (h : s.audioContext = true ∨ fxAll s = true) :
    (playNextNoteAudio env s nt).2.2 = false := by
  unfold playNextNoteAudio
  dsimp only
  have hok : (ensureFxChain (s.audioContext || env.canCreate)
      { s with audioContext := s.audioContext || env.canCreate }).2 = true := by
    rcases h with h | h
    · rw [h]
      exact ensureFxChain_ok_ctx _
    · exact ensureFxChain_ok_fxAll _ _ (by simpa [fxAll] using h)
  rw [hok]
  simp only [Bool.true_eq_false, if_false]
  split <;> rfl

lemma playNextNoteAudio_inv (env : AudioEnv) (s : SPState) (nt : AbcNote)
    (h : s.audioContext = true ∨ fxAll s = true) :
    (playNextNoteAudio env s nt).1.audioContext = true ∨
      fxAll (playNextNoteAudio env s nt).1 = true := by
  unfold playNextNoteAudio
  dsimp only
  rcases h with h | h
  · left
    have hctx : (s.audioContext || env.canCreate) = true := by rw [h]; rfl
    have h1 : (ensureFxChain (s.audioContext || env.canCreate)
        { s with audioContext := s.audioContext || env.canCreate }).1.audioContext = true := by
      rw [(ensureFxChain_preserve _ _).2.2.1]
      exact hctx
    split
    · exact h1
    · split
      · exact h1
      · exact playTone_ctx_mono _ _ _ _ h1
  · right
    have h2 : fxAll (ensureFxChain (s.audioContext || env.canCreate)
        { s with audioContext := s.audioContext || env.canCreate }).1 = true :=
      ensureFxChain_fxAll_mono _ _ (by simpa [fxAll] using h)
    split
    · exact h2
    · split
      · exact h2
      · rw [playTone_fxAll]
        exact h2

lemma playNextNote_no_throw (env : AudioEnv) (s : SPState) (h : spInv s) :
    (SymphonyPlayer.playNextNote env s).threw = false := by
  unfold SymphonyPlayer.playNextNote
  split
  · rfl
  · next h0 =>
    dsimp only
    have hinv := h (by simpa [List.length_eq_zero] using h0)
    exact playNextNoteAudio_no_throw env _ _ (by simpa [fxAll] using hinv)

lemma playNextNote_inv (env : AudioEnv) (s : SPState) (h : spInv s) :
    spInv (SymphonyPlayer.playNextNote env s).state := by
  unfold SymphonyPlayer.playNextNote
  split
  · exact h
  · next h0 =>
    dsimp only
    intro _hne
    have hinv := h (by simpa [List.length_eq_zero] using h0)
    exact playNextNoteAudio_inv env _ _ (by simpa [fxAll] using hinv)

lemma init_inv (env : AudioEnv) (s : SPState) : spInv (SymphonyPlayer.init env s).1 := by
  unfold SymphonyPlayer.init
  dsimp only
  split
  · intro hne
    simp at hne
  · next hfx =>
    have hfx2 : (ensureFxChain env.canCreate { s with audioContext := env.canCreate }).2 = true := by
      revert hfx
      cases (ensureFxChain env.canCreate { s with audioContext := env.canCreate }).2 <;> simp
    split
    · intro hne
      simp at hne
    · intro _hne
      by_cases hc : env.canCreate = true
      · left
        have h1 : (ensureFxChain env.canCreate
            { s with audioContext := env.canCreate }).1.audioContext = true := by
          rw [(ensureFxChain_preserve _ _).2.2.1]
          exact hc
        split <;> exact h1
      · right
        have h2 : fxAll (ensureFxChain env.canCreate
            { s with audioContext := env.canCreate }).1 = true :=
          ensureFxChain_fxAll_of_ok _ _ hfx2
        split <;> simpa [fxAll] using h2

lemma playPopSound_no_throw (penv : PopEnv) (snd : Bool) (p : PopState) :
    (playPopSound penv snd p).2.2 = false := by
  unfold playPopSound
  split
  · rfl
  · cases h : playPopSoundTry penv p with
    | none =>
      simp only [h]
      split <;> rfl
    | some pr =>
      simp only [h]

/-- C8: no audio-producing call throws in any state the player can be in.
`playTone` with an unavailable context silently does nothing; `playPopSound`
never lets an exception escape (its WebAudio failure falls back to file
audio, whose own failure is swallowed); and `playNextNote` never throws in
any state satisfying `spInv` — the invariant that holds in the initial
state, that `init` establishes from every state (any failure on the way
leaves the player empty and silent), and that `playNextNote` preserves, so
it covers every reachable player state. -/
theorem audio_calls_no_throw (env : AudioEnv) (penv : PopEnv) (s s3 : SPState)
    (p : PopState) (midi : ℤ) (dur : JsVal) (snd : Bool) (h : spInv s) :
    (SymphonyPlayer.playNextNote env s).threw = false ∧
    spInv (SymphonyPlayer.playNextNote env s).state ∧
    spInv (SymphonyPlayer.init env s3).1 ∧
    spInv initialSPState ∧
    (s3.audioContext = false → env.canCreate = false →
      playTone env s3 midi dur = (s3, .silent)) ∧
    (playPopSound penv snd p).2.2 = false := by
  refine ⟨playNextNote_no_throw env s h, playNextNote_inv env s h, init_inv env s3,
    by decide, ?_, playPopSound_no_throw penv snd p⟩
  intro h1 h2
  unfold playTone
  rw [h1, h2]
  rfl

/-- Witness for C8 at a concrete state: a freshly loaded player (from
`demoFresh`, which satisfies the invariant) with a working context never
throws, and the whole conjunction holds at an environment whose context
creation fails. -/
theorem audio_calls_no_throw_witness :
    (SymphonyPlayer.playNextNote ⟨false, false, Except.error ()⟩ initialSPState).threw = false ∧
    spInv (SymphonyPlayer.playNextNote ⟨false, false, Except.error ()⟩ initialSPState).state ∧
    spInv (SymphonyPlayer.init ⟨false, false, Except.error ()⟩ demoFresh).1 ∧
    spInv initialSPState ∧
    (demoFresh.audioContext = false → (⟨false, false, Except.error ()⟩ : AudioEnv).canCreate = false →
      playTone ⟨false, false, Except.error ()⟩ demoFresh 60 (.num ⟨3, 10⟩) = (demoFresh, .silent)) ∧
    (playPopSound ⟨false, false⟩ true ⟨false, false⟩).2.2 = false :=
  audio_calls_no_throw ⟨false, false, Except.error ()⟩ ⟨false, false⟩ initialSPState demoFresh
    ⟨false, false⟩ 60 (.num ⟨3, 10⟩) true (by decide)

lemma addBubble_length_le (bs : List Bubble) (b : Bubble) :
    (addBubble bs b).length ≤ MAX_BUBBLES := by
  unfold addBubble MAX_BUBBLES
  dsimp only
  split
  · simp only [List.length_drop, List.length_append, List.length_singleton]
    omega
  · next hn =>
    simp only [List.length_append, List.length_singleton] at hn ⊢
    omega

lemma applyBubbleOps_length_le :
    ∀ (ops : List BubbleOp) (bs : List Bubble), bs.length ≤ MAX_BUBBLES →
      (applyBubbleOps bs ops).length ≤ MAX_BUBBLES := by
  intro ops
  induction ops with
  | nil => intro bs h; exact h
  | cons op rest ih =>
    intro bs h
    cases op with
    | add b => exact ih _ (addBubble_length_le bs b)
    | expire i =>
      refine ih _ ?_
      calc (expireBubble bs i).length ≤ bs.length := List.length_filter_le _ _
      _ ≤ MAX_BUBBLES := h

/-- C4: over any sequence of `addBubble` calls and expiry timeouts starting
from the empty list, at most `MAX_BUBBLES = 12` bubbles are alive at once;
and an `addBubble` on a full list keeps the new bubble and drops exactly the
oldest one (the list becomes `tail ++ [new]`, the most recent 12 in
insertion order). -/
theorem bubbles_cap_evict_oldest (ops : List BubbleOp) :
    (applyBubbleOps [] ops).length ≤ MAX_BUBBLES ∧
    MAX_BUBBLES = 12 ∧
    (∀ (bs : List Bubble) (b : Bubble), bs.length = MAX_BUBBLES →
      addBubble bs b = bs.tail ++ [b]) := by
  refine ⟨applyBubbleOps_length_le ops [] (by simp), rfl, ?_⟩
  intro bs b h
  unfold addBubble
  dsimp only
  rw [if_pos (by simp [h, MAX_BUBBLES])]
  have h1 : (bs ++ [b]).length - MAX_BUBBLES = 1 := by
    simp [h, MAX_BUBBLES]
  rw [h1, List.drop_append_of_le_length (by rw [h]; decide), List.drop_one]

/-- Twelve distinct bubbles. -/
def demoTwelve : List Bubble := (List.range 12).map (fun i => ⟨i, "hi"⟩)

/-- Witness for C4: a burst of 14 adds and one expiry stays within the cap,
and adding to the full 12-bubble list evicts exactly its head. -/
theorem bubbles_cap_evict_oldest_witness :
    (applyBubbleOps [] ((List.range 14).map (fun i => BubbleOp.add ⟨i, "hi"⟩)
        ++ [BubbleOp.expire 9])).length ≤ MAX_BUBBLES ∧
    MAX_BUBBLES = 12 ∧
    addBubble demoTwelve ⟨99, "new"⟩ = demoTwelve.tail ++ [⟨99, "new"⟩] := by
  have h := bubbles_cap_evict_oldest ((List.range 14).map (fun i => BubbleOp.add ⟨i, "hi"⟩)
    ++ [BubbleOp.expire 9])
  exact ⟨h.1, h.2.1, h.2.2 demoTwelve ⟨99, "new"⟩ (by decide)⟩

lemma foldl_enqueueMsg (msgs : List QMsg) :
    ∀ acc : List QMsg, msgs.foldl enqueueMsg acc = acc ++ msgs := by
  induction msgs with
  | nil => intro acc; simp
  | cons m rest ih =>
    intro acc
    simp only [List.foldl_cons, enqueueMsg, ih]
    simp

lemma drainSteps_spec :
    ∀ (i : ℕ) (q p : List QMsg), i ≤ q.length →
      drainSteps ⟨q, p⟩ i = ⟨q.drop i, p ++ q.take i⟩ := by
  intro i
  induction i with
  | zero => intro q p _; simp [drainSteps]
  | succ i ih =>
    intro q p h
    cases q with
    | nil => simp at h
    | cons m rest =>
      have : drainSteps ⟨m :: rest, p⟩ (i + 1) = drainSteps ⟨rest, p ++ [m]⟩ i := rfl
      rw [this, ih rest (p ++ [m]) (by simpa using h)]
      simp

/-- C6: enqueueing a burst of messages (`push`) and draining is FIFO — after
`i` drain steps exactly the first `i` messages, in arrival order, have been
presented (one per step) and the rest are still queued in order. -/
theorem queue_fifo_drain (msgs : List QMsg) (i : ℕ) (hi : i ≤ msgs.length) :
    msgs.foldl enqueueMsg [] = msgs ∧
    (drainSteps ⟨msgs, []⟩ i).presented = msgs.take i ∧
    (drainSteps ⟨msgs, []⟩ i).queue = msgs.drop i := by
  refine ⟨by simpa using foldl_enqueueMsg msgs [], ?_, ?_⟩
  · rw [drainSteps_spec i msgs [] hi]
    simp
  · rw [drainSteps_spec i msgs [] hi]

/-- Three queued messages. -/
def demoMsgs : List QMsg := [⟨"a", 1, "checkin"⟩, ⟨"b", 2, "checkin"⟩, ⟨"c", 3, "checkin"⟩]

/-- Witness for C6: after two drain steps over a three-message burst, the
first two messages have been presented in order and the third is queued. -/
theorem queue_fifo_drain_witness :
    demoMsgs.foldl enqueueMsg [] = demoMsgs ∧
    (drainSteps ⟨demoMsgs, []⟩ 2).presented = demoMsgs.take 2 ∧
    (drainSteps ⟨demoMsgs, []⟩ 2).queue = demoMsgs.drop 2 :=
  queue_fifo_drain demoMsgs 2 (by decide)

/-- C3: applying a fresh stats snapshot resets both increment counters to
exactly zero whatever they were, installs the snapshot, and the displayed
count right after a refresh is exactly the snapshot value (no double
counting); in every state the displayed count is
`snapshot value + increment`. -/
theorem stats_snapshot_resets_increments (st : StatsState) (data : StatsSnapshot) :
    (fetchStatsSuccess st data).eventIncrement = 0 ∧
    (fetchStatsSuccess st data).sessionIncrement = 0 ∧
    (fetchStatsSuccess st data).stats = data ∧
    displayedEventCheckins (fetchStatsSuccess st data) = data.event_checkins ∧
    displayedSessionCheckins (fetchStatsSuccess st data) = data.session_checkins ∧
    (∀ st2 : StatsState,
      displayedEventCheckins st2 = st2.stats.event_checkins + st2.eventIncrement ∧
      displayedSessionCheckins st2 = st2.stats.session_checkins + st2.sessionIncrement) :=
  ⟨rfl, rfl, rfl, by simp [displayedEventCheckins, fetchStatsSuccess],
    by simp [displayedSessionCheckins, fetchStatsSuccess], fun _ => ⟨rfl, rfl⟩⟩

/-- C10: the `checkin_poke` handler leaves the whole client state unchanged
and issues no request — no bubble message, no increment change, no
enrichment lookup, no refresh (re-)scheduling — when the payload is null or
its `event_id` differs from the subscribed event id. -/
theorem poke_mismatch_no_effect (now : ℕ) (ev : String) (st : DashState) :
    handleCheckinPoke now ev st none = (st, []) ∧
    (∀ d : PokeData, d.event_id ≠ ev → handleCheckinPoke now ev st (some d) = (st, [])) := by
  constructor
  · rfl
  · intro d hd
    unfold handleCheckinPoke
    dsimp only
    rw [if_pos hd]

/-- A dashboard state mid-session, with nonzero counters and a pending
refresh. -/
def demoDash : DashState := ⟨5, some ⟨"x", 5, "checkin"⟩, 2, 3, some "s9", some 400⟩

/-- Witness for C10: a poke for a different event id leaves a concrete busy
dashboard state untouched and issues nothing, as does a null payload. -/
theorem poke_mismatch_no_effect_witness :
    handleCheckinPoke 7 "evt-B" demoDash none = (demoDash, []) ∧
    handleCheckinPoke 7 "evt-B" demoDash (some ⟨"evt-A", some ["r1", "r2"]⟩) = (demoDash, []) := by
  have h := poke_mismatch_no_effect 7 "evt-B" demoDash
  exact ⟨h.1, h.2 ⟨"evt-A", some ["r1", "r2"]⟩ (by decide)⟩

lemma debounce_fold (ts : List ℕ) :
    ∀ (t0 : ℕ) (acc : List ℕ),
      List.Chain (fun a b => a < b ∧ b < a + statsRefreshDelayCheckin) t0 ts →
      ts.foldl (fun st t => onCheckinEvent t st) ⟨some (t0 + statsRefreshDelayCheckin), acc⟩
        = ⟨some ((t0 :: ts).getLast (List.cons_ne_nil t0 ts) + statsRefreshDelayCheckin), acc⟩ := by
  induction ts with
  | nil => intro t0 acc _; rfl
  | cons u us ih =>
    intro t0 acc hch
    obtain ⟨⟨_h1, h2⟩, hch2⟩ := List.chain_cons.mp hch
    have hstep : onCheckinEvent u ⟨some (t0 + statsRefreshDelayCheckin), acc⟩
        = ⟨some (u + statsRefreshDelayCheckin), acc⟩ := by
      unfold onCheckinEvent
      dsimp only
      rw [if_neg (by omega)]
    rw [List.foldl_cons, hstep, ih u acc hch2]
    congr 2

/-- C5: every `checkin_event` that arrives while a stats refresh is pending
cancels that timeout and arms a fresh one; hence a burst of events whose
consecutive gaps are all shorter than the debounce delay produces exactly
one stats refresh, firing one full delay after the last event of the
burst. -/
theorem debounce_burst_single_fetch (t0 : ℕ) (ts : List ℕ)
    (h : List.Chain (fun a b => a < b ∧ b < a + statsRefreshDelayCheckin) t0 ts) :
    fetchTimes (t0 :: ts)
      = [(t0 :: ts).getLast (List.cons_ne_nil t0 ts) + statsRefreshDelayCheckin] := by
  unfold fetchTimes
  rw [List.foldl_cons]
  have h0 : onCheckinEvent t0 debounceInit
      = ⟨some (t0 + statsRefreshDelayCheckin), []⟩ := rfl
  rw [h0, debounce_fold ts t0 [] h]
  rfl

/-- Witness for C5 on the spec's scenario shape: events at t = 0 ms and
t = 50 ms with the 10000 ms source delay produce exactly one refresh, at
10050 ms — one full delay after the last event, not one refresh per
event. -/
theorem debounce_burst_single_fetch_witness : fetchTimes [0, 50] = [10050] :=
  (debounce_burst_single_fetch 0 [50]
    (List.chain_cons.mpr ⟨⟨by decide, by decide⟩, List.Chain.nil⟩)).trans (by decide)

/-- Whether a line would change the default note length (`L:` prefix with a
parseable fraction). -/
def lineSetsL (l : List Char) : Bool :=
  startsWith2 'L' ':' l && (searchFrac (jsTrim (l.drop 2))).isSome

/-- Whether a line would change the tempo (`Q:` prefix with either a
`n/d=bpm` match or any digit run). -/
def lineSetsQ (l : List Char) : Bool :=
  startsWith2 'Q' ':' l &&
    ((searchQ1 (jsTrim (l.drop 2))).isSome || (searchDigits (jsTrim (l.drop 2))).isSome)

lemma parseHeaderLine_noop (h : AbcHeaders) (l : List Char)
    (hL : lineSetsL l = false) (hQ : lineSetsQ l = false) :
    parseHeaderLine h l = h := by
  rcases hf : searchFrac (jsTrim (l.drop 2)) with _ | ⟨nn, dd⟩ <;>
    rcases hq1 : searchQ1 (jsTrim (l.drop 2)) with _ | ⟨qn, qd, qb⟩ <;>
    rcases hqd : searchDigits (jsTrim (l.drop 2)) with _ | bpm <;>
    cases hsl : startsWith2 'L' ':' l <;>
    cases hsq : startsWith2 'Q' ':' l <;>
    simp_all [parseHeaderLine, lineSetsL, lineSetsQ]

lemma foldl_parseHeaderLine_noop :
    ∀ (ls : List (List Char)) (h : AbcHeaders),
      (∀ l ∈ ls, lineSetsL l = false ∧ lineSetsQ l = false) →
      ls.foldl parseHeaderLine h = h := by
  intro ls
  induction ls with
  | nil => intro h _; rfl
  | cons l rest ih =>
    intro h hall
    rw [List.foldl_cons,
      parseHeaderLine_noop h l (hall l (by simp)).1 (hall l (by simp)).2]
    exact ih h (fun x hx => hall x (by simp [hx]))

/-- C7: on an input none of whose lines carries a usable `L:` fraction or a
usable `Q:` tempo (missing or malformed headers), the parse still goes
through, with the fixed defaults `L:1/8` and `Q:1/4 = 120` BPM; the whole
`parseAbcSimple` run is then exactly the parse of the content under those
defaults. -/
theorem abc_headers_default_fallback (text : String)
    (h : ∀ l ∈ abcLines text, lineSetsL l = false ∧ lineSetsQ l = false) :
    abcHeadersOf text = defaultAbcHeaders ∧
    defaultAbcHeaders = ⟨1, 8, 1, 4, 120⟩ ∧
    parseAbcSimple text = abcNotesWith defaultAbcHeaders (abcContentOf text) := by
  have h1 : abcHeadersOf text = defaultAbcHeaders :=
    foldl_parseHeaderLine_noop _ _ h
  refine ⟨h1, rfl, ?_⟩
  unfold parseAbcSimple
  rw [h1]

/-- Witness for C7: an input with a malformed `L:` header, a malformed `Q:`
header, and unrelated header lines parses its three notes under the
defaults. -/
theorem abc_headers_default_fallback_witness :
    abcHeadersOf "X:1\nT:x\nL:none\nQ:fast\nC D E" = defaultAbcHeaders ∧
    defaultAbcHeaders = ⟨1, 8, 1, 4, 120⟩ ∧
    parseAbcSimple "X:1\nT:x\nL:none\nQ:fast\nC D E"
      = abcNotesWith defaultAbcHeaders (abcContentOf "X:1\nT:x\nL:none\nQ:fast\nC D E") :=
  abc_headers_default_fallback "X:1\nT:x\nL:none\nQ:fast\nC D E" (by decide)

/-- The property C9 claims of every parsed note duration, on the `JsVal`
domain: a finite value that is strictly positive and at most 1.5 seconds
(`0 < n / d ≤ 3 / 2` by cross multiplication; `Infinity` and `NaN` do not
qualify). -/
def durOk : JsVal → Prop
  | .num x => 0 < x.n ∧ 0 < x.d ∧ 2 * x.n ≤ 3 * x.d
  | .inf => False
  | .nan => False

instance : DecidablePred durOk := fun v =>
  match v with
  | .num x => inferInstanceAs (Decidable (0 < x.n ∧ 0 < x.d ∧ 2 * x.n ≤ 3 * x.d))
  | .inf => inferInstanceAs (Decidable False)
  | .nan => inferInstanceAs (Decidable False)


/-- A duration token inside the range where the double arithmetic provably
stays finite and nonzero where it must: an explicit fraction has a nonzero
denominator and numerator and denominator of at most `10^8`, and a slash
run is no longer than `2^53` (the ECMAScript string length cap).  `C3/0`
and a `C` with a 310-digit numerator are the kinds of token this excludes. -/
def durTokOk : DurTok → Prop
  | .slashes k => k + 1 ≤ 2 ^ 53
  | .frac n none => n ≤ 10 ^ 8
  | .frac n (some dd) => n ≤ 10 ^ 8 ∧ dd ≠ 0 ∧ dd ≤ 10 ^ 8
  | _ => True

instance : DecidablePred durTokOk := fun t =>
  match t with
  | .noTok => inferInstanceAs (Decidable True)
  | .slashes k => inferInstanceAs (Decidable (k + 1 ≤ 2 ^ 53))
  | .slashNum _ => inferInstanceAs (Decidable True)
  | .frac n none => inferInstanceAs (Decidable (n ≤ 10 ^ 8))
  | .frac n (some dd) =>
    inferInstanceAs (Decidable (n ≤ 10 ^ 8 ∧ dd ≠ 0 ∧ dd ≤ 10 ^ 8))

/-- Parsed headers inside the same safe range: nonzero denominators, a
nonzero `Q:` note-fraction numerator, and all four fraction values at most
`10^8` (the `L:` numerator may be zero). -/
def abcHeadersNumOk (hdr : AbcHeaders) : Prop :=
  hdr.Lnum ≤ 10 ^ 8 ∧ hdr.Lden ≠ 0 ∧ hdr.Lden ≤ 10 ^ 8 ∧
    hdr.Qnum ≠ 0 ∧ hdr.Qnum ≤ 10 ^ 8 ∧ hdr.Qden ≠ 0 ∧ hdr.Qden ≤ 10 ^ 8

instance (hdr : AbcHeaders) : Decidable (abcHeadersNumOk hdr) :=
  inferInstanceAs (Decidable (hdr.Lnum ≤ 10 ^ 8 ∧ hdr.Lden ≠ 0 ∧
    hdr.Lden ≤ 10 ^ 8 ∧ hdr.Qnum ≠ 0 ∧ hdr.Qnum ≤ 10 ^ 8 ∧
    hdr.Qden ≠ 0 ∧ hdr.Qden ≤ 10 ^ 8))

set_option exponentiation.threshold 1200

set_option maxRecDepth 4000

/-- A numerator of at most `6 * 10^25` over a positive denominator is far
below the double overflow threshold. -/
lemma not_overflow_of_le (n d : ℕ) (hn : n ≤ 6 * 10 ^ 25) (hd : 0 < d) :
    ¬ jsOverflowNum * d ≤ n := by
  intro hcon
  have h1 : jsOverflowNum ≤ jsOverflowNum * d :=
    le_mul_of_one_le_right (Nat.zero_le _) hd
  have h2 : (6 : ℕ) * 10 ^ 25 < jsOverflowNum := by decide
  exact absurd (le_trans h1 hcon) (Nat.not_le.mpr (lt_of_le_of_lt hn h2))

/-- A positive numerator over a denominator of at most `6 * 10^25` is far
above the double underflow threshold. -/
lemma not_flush_of_le (n d : ℕ) (hn : 0 < n) (hd : d ≤ 6 * 10 ^ 25) :
    ¬ n * jsUnderflowDen ≤ d := by
  intro hcon
  have h1 : jsUnderflowDen ≤ n * jsUnderflowDen :=
    le_mul_of_one_le_left (Nat.zero_le _) hn
  have h2 : (6 : ℕ) * 10 ^ 25 < jsUnderflowDen := by decide
  exact absurd (le_trans h1 hcon) (Nat.not_le.mpr (lt_of_le_of_lt hd h2))

/-- Below the overflow threshold, `mkJsNum` yields a finite value with a
positive denominator and components no larger than the input's (the
flush-to-zero case returns `0/1`). -/
lemma mkJsNum_num_of_le (x : Frac) (hd : 0 < x.d) (hn : x.n ≤ 6 * 10 ^ 25) :
    ∃ z : Frac, mkJsNum x = .num z ∧ 0 < z.d ∧ z.n ≤ x.n ∧ z.d ≤ x.d := by
  unfold mkJsNum
  rw [if_neg (not_overflow_of_le x.n x.d hn hd)]
  by_cases h : x.n * jsUnderflowDen ≤ x.d
  · rw [if_pos h]
    exact ⟨⟨0, 1⟩, rfl, Nat.one_pos, Nat.zero_le _, hd⟩
  · rw [if_neg h]
    exact ⟨x, rfl, hd, le_refl _, le_refl _⟩

/-- Strictly between the underflow and overflow thresholds, `mkJsNum` keeps
the exact value. -/
lemma mkJsNum_exact (x : Frac) (hn0 : 0 < x.n) (hn : x.n ≤ 6 * 10 ^ 25)
    (hd0 : 0 < x.d) (hd : x.d ≤ 6 * 10 ^ 25) :
    mkJsNum x = .num x := by
  unfold mkJsNum
  rw [if_neg (not_overflow_of_le x.n x.d hn hd0),
    if_neg (not_flush_of_le x.n x.d hn0 hd)]

/-- A `parseInt` result of at most `6 * 10^25` survives the double
conversion exactly. -/
lemma toJs_num (k : ℕ) (hk : k ≤ 6 * 10 ^ 25) : toJs k = .num ⟨k, 1⟩ := by
  rcases Nat.eq_zero_or_pos k with h0 | h0
  · subst h0
    decide
  · exact mkJsNum_exact ⟨k, 1⟩ h0 hk Nat.one_pos (by norm_num)

/-- Finite division with a nonzero divisor is `mkJsNum` of the exact
cross-multiplied quotient. -/
lemma jsDiv_num_of (a b : Frac) (hb : b.n ≠ 0) :
    jsDiv (.num a) (.num b) = mkJsNum ⟨a.n * b.d, a.d * b.n⟩ := by
  simp only [jsDiv]
  rw [if_neg hb]

/-- Finite multiplication is `mkJsNum` of the exact product. -/
lemma jsMul_num (a b : Frac) :
    jsMul (.num a) (.num b) = mkJsNum ⟨a.n * b.n, a.d * b.d⟩ := rfl

/-- A quotient of two `parseInt` values in the safe range is finite, with a
positive denominator and numerator and denominator bounded by the inputs. -/
lemma jsDiv_toJs (a b : ℕ) (ha : a ≤ 10 ^ 8) (hb0 : b ≠ 0) (hb : b ≤ 10 ^ 8) :
    ∃ z : Frac, jsDiv (toJs a) (toJs b) = .num z ∧ 0 < z.d ∧ z.n ≤ a ∧ z.d ≤ b := by
  have hB : (10 : ℕ) ^ 8 ≤ 6 * 10 ^ 25 := by norm_num
  rw [toJs_num a (le_trans ha hB), toJs_num b (le_trans hb hB),
    jsDiv_num_of ⟨a, 1⟩ ⟨b, 1⟩ hb0]
  obtain ⟨z, hz, h1, h2, h3⟩ := mkJsNum_num_of_le ⟨a * 1, 1 * b⟩
    (by simpa using Nat.pos_of_ne_zero hb0) (by simpa using le_trans ha hB)
  refine ⟨z, hz, h1, ?_, ?_⟩
  · simpa using h2
  · simpa using h3

/-- A quotient of two nonzero `parseInt` values in the safe range is held
exactly. -/
lemma jsDiv_toJs_exact (a b : ℕ) (ha0 : a ≠ 0) (ha : a ≤ 10 ^ 8)
    (hb0 : b ≠ 0) (hb : b ≤ 10 ^ 8) :
    jsDiv (toJs a) (toJs b) = .num ⟨a * 1, 1 * b⟩ := by
  have hB : (10 : ℕ) ^ 8 ≤ 6 * 10 ^ 25 := by norm_num
  rw [toJs_num a (le_trans ha hB), toJs_num b (le_trans hb hB),
    jsDiv_num_of ⟨a, 1⟩ ⟨b, 1⟩ hb0]
  exact mkJsNum_exact ⟨a * 1, 1 * b⟩ (by simpa using Nat.pos_of_ne_zero ha0)
    (by simpa using le_trans ha hB) (by simpa using Nat.pos_of_ne_zero hb0)
    (by simpa using le_trans hb hB)

/-- A product of finite values whose exact numerator stays in the safe range
is finite, with a positive denominator and a numerator bounded by the exact
product. -/
lemma jsMul_num_of_le (x y : Frac) (hx : 0 < x.d) (hy : 0 < y.d)
    (h : x.n * y.n ≤ 6 * 10 ^ 25) :
    ∃ z : Frac, jsMul (.num x) (.num y) = .num z ∧ 0 < z.d ∧ z.n ≤ x.n * y.n := by
  rw [jsMul_num]
  obtain ⟨z, hz, h1, h2, h3⟩ := mkJsNum_num_of_le ⟨x.n * y.n, x.d * y.d⟩
    (Nat.mul_pos hx hy) h
  exact ⟨z, hz, h1, h2⟩

/-- Any finite value with positive denominator lands in `(0, 1.5]` after
the `Math.max(0.08, Math.min(1.5, v))` clamp. -/
lemma clamp_durOk (z : Frac) (hz : 0 < z.d) :
    durOk (jsMax (.num ⟨2, 25⟩) (jsMin (.num ⟨3, 2⟩) (.num z))) := by
  have hmin : jsMin (.num ⟨3, 2⟩) (.num z)
      = if fleB ⟨3, 2⟩ z then .num ⟨3, 2⟩ else .num z := rfl
  by_cases h1 : 3 * z.d ≤ z.n * 2
  · rw [hmin, if_pos (show fleB ⟨3, 2⟩ z = true from decide_eq_true h1)]
    decide
  · rw [hmin, if_neg (show ¬ fleB ⟨3, 2⟩ z = true from by simpa [fleB] using h1)]
    have hmax : jsMax (.num ⟨2, 25⟩) (.num z)
        = if fleB ⟨2, 25⟩ z then .num z else .num ⟨2, 25⟩ := rfl
    by_cases h2 : 2 * z.d ≤ z.n * 25
    · rw [hmax, if_pos (show fleB ⟨2, 25⟩ z = true from decide_eq_true h2)]
      exact ⟨by omega, hz, by omega⟩
    · rw [hmax, if_neg (show ¬ fleB ⟨2, 25⟩ z = true from by simpa [fleB] using h2)]
      decide

/-- Under in-range headers and an in-range token, every duration comes out
of the clamp finite, strictly positive, and at most `1.5` seconds: all
intermediate doubles stay between roughly `2 * 10^-25` and `6 * 10^25`, so
`mkJsNum` never saturates or flushes where it would matter. -/
lemma durationFromToken_ok (hdr : AbcHeaders) (tok : DurTok)
    (hhdr : abcHeadersNumOk hdr) (htok : durTokOk tok) :
    durOk (durationFromToken hdr tok) := by
  obtain ⟨hLn, hLd0, hLd, hQn0, hQn, hQd0, hQd⟩ := hhdr
  have hcl0 : (max 30 (min 300 hdr.Qbpm)) ≠ 0 := by
    have := le_max_left 30 (min 300 hdr.Qbpm)
    omega
  have hcl : (max 30 (min 300 hdr.Qbpm)) ≤ 10 ^ 8 :=
    le_trans (max_le (by norm_num) (min_le_left _ _)) (by norm_num)
  cases tok with
  | noTok => exact ⟨by decide, by decide, by decide⟩
  | slashNum dd => exact ⟨by decide, by decide, by decide⟩
  | slashes k =>
    have htok' : k + 1 ≤ 2 ^ 53 := htok
    have hk : k + 1 ≤ 6 * 10 ^ 25 := le_trans htok' (by norm_num)
    have e : durationFromToken hdr (.slashes k) = .num ⟨3 * 1, 20 * (k + 1)⟩ := by
      have e0 : durationFromToken hdr (.slashes k)
          = jsDiv (.num ⟨3, 20⟩) (toJs (k + 1)) := rfl
      rw [e0, toJs_num (k + 1) hk, jsDiv_num_of ⟨3, 20⟩ ⟨k + 1, 1⟩ (Nat.succ_ne_zero k)]
      exact mkJsNum_exact ⟨3 * 1, 20 * (k + 1)⟩ (by norm_num) (by norm_num)
        (by show 0 < 20 * (k + 1); omega)
        (le_trans (Nat.mul_le_mul (le_refl 20) htok') (by norm_num))
    rw [e]
    show 0 < 3 * 1 ∧ 0 < 20 * (k + 1) ∧ 2 * (3 * 1) ≤ 3 * (20 * (k + 1))
    omega
  | frac nn dOpt =>
    have hb : nn ≤ 10 ^ 8 ∧ (dOpt.getD 1) ≠ 0 ∧ (dOpt.getD 1) ≤ 10 ^ 8 := by
      cases dOpt with
      | none => exact ⟨htok, one_ne_zero, by norm_num⟩
      | some dd => exact ⟨htok.1, htok.2.1, htok.2.2⟩
    obtain ⟨hnn, hdd0, hdd⟩ := hb
    obtain ⟨f, hf, hfd, hfn, hfdle⟩ := jsDiv_toJs nn (dOpt.getD 1) hnn hdd0 hdd
    obtain ⟨bs, hbs, hbsd, hbsn, hbsdle⟩ := jsDiv_toJs hdr.Lnum hdr.Lden hLn hLd0 hLd
    have hqf : jsDiv (toJs hdr.Qnum) (toJs hdr.Qden)
        = .num ⟨hdr.Qnum * 1, 1 * hdr.Qden⟩ :=
      jsDiv_toJs_exact hdr.Qnum hdr.Qden hQn0 hQn hQd0 hQd
    have hsq : jsDiv (toJs 60) (toJs (max 30 (min 300 hdr.Qbpm)))
        = .num ⟨60 * 1, 1 * max 30 (min 300 hdr.Qbpm)⟩ :=
      jsDiv_toJs_exact 60 (max 30 (min 300 hdr.Qbpm)) (by norm_num) (by norm_num)
        hcl0 hcl
    have hoq : jsDiv (.num ⟨1, 1⟩) (.num ⟨hdr.Qnum * 1, 1 * hdr.Qden⟩)
        = .num ⟨1 * (1 * hdr.Qden), 1 * (hdr.Qnum * 1)⟩ := by
      rw [jsDiv_num_of ⟨1, 1⟩ ⟨hdr.Qnum * 1, 1 * hdr.Qden⟩ (by simpa using hQn0)]
      exact mkJsNum_exact ⟨1 * (1 * hdr.Qden), 1 * (hdr.Qnum * 1)⟩
        (by simpa using Nat.pos_of_ne_zero hQd0)
        (by simpa using le_trans hQd (by norm_num))
        (by simpa using Nat.pos_of_ne_zero hQn0)
        (by simpa using le_trans hQn (by norm_num))
    have hwb : (1 * (1 * hdr.Qden)) * (60 * 1) ≤ 6 * 10 ^ 25 := by
      simp only [one_mul, mul_one]
      exact le_trans (Nat.mul_le_mul hQd (le_refl 60)) (by norm_num)
    obtain ⟨w, hw, hwd, hwn⟩ := jsMul_num_of_le ⟨1 * (1 * hdr.Qden), 1 * (hdr.Qnum * 1)⟩
      ⟨60 * 1, 1 * max 30 (min 300 hdr.Qbpm)⟩
      (by simpa using Nat.pos_of_ne_zero hQn0)
      (by simp [Nat.pos_of_ne_zero hcl0]) hwb
    have hwn9 : w.n ≤ 6 * 10 ^ 9 := by
      refine le_trans hwn ?_
      simp only [one_mul, mul_one]
      exact le_trans (Nat.mul_le_mul hQd (le_refl 60)) (by norm_num)
    have hm1b : w.n * bs.n ≤ 6 * 10 ^ 25 :=
      le_trans (Nat.mul_le_mul hwn9 (le_trans hbsn hLn)) (by norm_num)
    have hzb0 : w.n * bs.n ≤ 6 * 10 ^ 17 :=
      le_trans (Nat.mul_le_mul hwn9 (le_trans hbsn hLn)) (by norm_num)
    have e0 : durationFromToken hdr (.frac nn dOpt)
        = jsMax (.num ⟨2, 25⟩) (jsMin (.num ⟨3, 2⟩)
            (jsMul (jsMul (jsMul
              (jsDiv (.num ⟨1, 1⟩) (jsDiv (toJs hdr.Qnum) (toJs hdr.Qden)))
              (jsDiv (toJs 60) (toJs (max 30 (min 300 hdr.Qbpm)))))
              (jsDiv (toJs hdr.Lnum) (toJs hdr.Lden)))
              (jsDiv (toJs nn) (toJs (dOpt.getD 1))))) := rfl
    rw [e0, hf, hbs, hqf, hsq, hoq, hw]
    obtain ⟨m1, hm1, hm1d, hm1n⟩ := jsMul_num_of_le w bs hwd hbsd hm1b
    rw [hm1]
    have hm17 : m1.n ≤ 6 * 10 ^ 17 := le_trans hm1n hzb0
    have hzb : m1.n * f.n ≤ 6 * 10 ^ 25 :=
      le_trans (Nat.mul_le_mul hm17 (le_trans hfn hnn)) (by norm_num)
    obtain ⟨z, hz2, hzd, hzn⟩ := jsMul_num_of_le m1 f hm1d hfd hzb
    rw [hz2]
    exact clamp_durOk z hzd

/-- An ABC input whose `L:` numerator is `10^309` (a 310-digit run): the JS
`parseInt` of such a string exceeds the largest double and yields
`Infinity`. -/
def overflowAbcInput : String :=
  "L:1" ++ String.mk (List.replicate 309 '0') ++ "/1\nC0"

